import Mathlib

/-!
# Verification of the multi-fidelity BO tutorial engine

Shallow embedding of the cost-aware multi-fidelity acquisition optimization
engine driven by `tutorials/multi_fidelity_bo/multi_fidelity_bo.ipynb`.
Design points are rational vectors (`List ℚ`); a candidate batch is a list of
design points.  Functions defined in the notebook itself are translated from
its cells; library components the notebook calls (cost model, utility,
projector, continuous optimizer) are not part of this repository's sources and
are modelled from the spec, as marked in their doc comments.
-/

namespace MFBO

/-- Modelled from the spec: `AffineFidelityCostModel` (the notebook builds it
with `fidelity_weights={6: 1.0}, fixed_cost=5.0`).  Spec 4.2:
`cost(x) = fixed_cost + Σ_f weight[f] * x[f]` over fidelity dimensions `f`. -/
def affineCost (weights : List (ℕ × ℚ)) (fc : ℚ) (x : List ℚ) : ℚ :=
  fc + (weights.map (fun p => p.2 * x.getD p.1 0)).sum

/-- Batch cost: the notebook computes `cost_model(candidates).sum()`;
spec 4.2: for a batch, total cost is the sum over the batch's design points. -/
def costBatch (weights : List (ℕ × ℚ)) (fc : ℚ) (B : List (List ℚ)) : ℚ :=
  (B.map (affineCost weights fc)).sum

/-- The notebook's configured fidelity weights `{6: 1.0}`. -/
def fidelityWeights : List (ℕ × ℚ) := [(6, 1)]

/-- The notebook's configured fixed cost `5.0`. -/
def fixedCost : ℚ := 5

/-- Modelled from the spec: `InverseCostWeightedUtility`.  Spec 4.3:
`utility(raw_value, cost) = raw_value / max(cost, ε)` for a small positive
`ε` preventing division by zero. -/
def invCostUtility (eps raw cost : ℚ) : ℚ := raw / max cost eps

/-- First value bound to a key in an association list of per-dimension values
(used for target fidelities, cost weights and fixed feature columns). -/
def lookupDim (ts : List (ℕ × ℚ)) (i : ℕ) : Option ℚ :=
  (ts.find? (fun p => p.1 == i)).map (fun p => p.2)

/-- Modelled from the spec: `project_to_target_fidelity`.  Spec 4.1:
`project(x)` equals `x` on non-fidelity dimensions and equals the target
fidelity vector on fidelity dimensions. -/
def projectTF (ts : List (ℕ × ℚ)) (d : ℕ) (x : List ℚ) : List ℚ :=
  (List.range d).map (fun i =>
    match lookupDim ts i with
    | some t => t
    | none => x.getD i 0)

/-- The notebook's `target_fidelities = {6: 1.0}`. -/
def targetFidelities : List (ℕ × ℚ) := [(6, 1)]

/-- The notebook's `project`: `project_to_target_fidelity(X, target_fidelities)`
on 7-dimensional design points. -/
def project (x : List ℚ) : List ℚ := projectTF targetFidelities 7 x

/-- Modelled from the spec: `FixedFeatureAcquisitionFunction._construct_X_full`
(not in the sources; only its callers are).  Rebuilds a full `d`-dimensional
point from a reduced point `x` by inserting the fixed column values at their
columns and filling the remaining dimensions from `x` in order. -/
def construct_X_full (cols : List (ℕ × ℚ)) (d : ℕ) (x : List ℚ) : List ℚ :=
  (List.range d).map (fun i =>
    match lookupDim cols i with
    | some v => v
    | none =>
      x.getD ((List.range i).countP (fun j => (lookupDim cols j).isNone)) 0)

/-- Clamp one coordinate to the interval `[l, u]`. -/
def clampCoord (l u v : ℚ) : ℚ := max l (min v u)

/-- Clamp a design point to the box given by `lower` and `upper`
(per spec 4.6 every coordinate is clamped to the box at every step);
the result always has the box's dimension. -/
def clampToBox (lower upper x : List ℚ) : List ℚ :=
  (List.range lower.length).map (fun i =>
    clampCoord (lower.getD i 0) (upper.getD i 0) (x.getD i 0))

/-- Shape a candidate batch to exactly `q` clamped design points, mirroring the
optimizer's fixed `(q, d)` tensor shape. -/
def normBatch (lower upper : List ℚ) (q : ℕ) (B : List (List ℚ)) :
    List (List ℚ) :=
  (List.range q).map (fun j => clampToBox lower upper (B.getD j []))

/-- Modelled from the spec: one restart of the local gradient-based maximizer
(spec 4.6).  The numeric update is the abstract `stepf`; the optimizer clamps
all coordinates to the box at every step, for `maxiter` steps. -/
def localSearch (stepf : List (List ℚ) → List (List ℚ))
    (lower upper : List ℚ) (q maxiter : ℕ) (B0 : List (List ℚ)) :
    List (List ℚ) :=
  (fun B => normBatch lower upper q (stepf B))^[maxiter]
    (normBatch lower upper q B0)

/-- Best batch under the acquisition value, ties broken by first-found
(spec 4.6 max-reduction across restarts). -/
def bestBatch (acq : List (List ℚ) → ℚ) (bs : List (List (List ℚ))) :
    List (List ℚ) :=
  match bs with
  | [] => []
  | b :: rest => rest.foldl (fun best c => if acq best < acq c then c else best) b

/-- Modelled from the spec: `optimize_acqf`, the continuous multi-restart
optimizer (spec 4.6).  From each initial condition it runs a clamped local
search, then returns the best-found candidate batch and its achieved value. -/
def optimize_acqf (acq : List (List ℚ) → ℚ)
    (stepf : List (List ℚ) → List (List ℚ))
    (lower upper : List ℚ) (q maxiter : ℕ)
    (inits : List (List (List ℚ))) : List (List ℚ) × ℚ :=
  let finals := inits.map (localSearch stepf lower upper q maxiter)
  let best := bestBatch acq finals
  (best, acq best)

/-- The notebook's box: `bounds = [[0.0]*7, [1.0]*7]`, lower row. -/
def lowerB : List ℚ := List.replicate 7 0

/-- The notebook's box, upper row. -/
def upperB : List ℚ := List.replicate 7 1

/-- The fixed feature configuration used everywhere in the notebook:
`columns=[6], values=[1]` on `d=7`. -/
def fixedCols : List (ℕ × ℚ) := [(6, 1)]

/-- The `qMultiFidelityKnowledgeGradient` instance built by `get_mfkg`:
stateless except for captured configuration (spec data model: model
reference, cost model, projector, current value).  The per-fantasy values
(fantasy posterior mean at its inner maximizer, spec 4.5 step 3, fixed base
samples per fantasy index) are captured as the abstract `fantasyVal`. -/
structure MFKGAcqf where
  numFantasies : ℕ
  currentValue : ℚ
  fantasyVal : ℕ → List (List ℚ) → ℚ
  epsMin : ℚ

/-- The current-value acquisition `get_mfkg` builds:
`FixedFeatureAcquisitionFunction(PosteriorMean(model), d=7, columns=[6],
values=[1])`, evaluated on `q=1` batches over the first six dimensions;
`mean` is the surrogate's posterior mean (external collaborator). -/
def currValAcqf (mean : List ℚ → ℚ) : List (List ℚ) → ℚ :=
  fun B => mean (construct_X_full fixedCols 7 (B.getD 0 []))

/-- The `current_value` computed in `get_mfkg`: the achieved value of
`optimize_acqf` on `currValAcqf` over `bounds[:, :-1]` with `q=1`. -/
def currentValueOf (mean : List ℚ → ℚ)
    (stepf : List (List ℚ) → List (List ℚ)) (maxiter : ℕ)
    (inits : List (List (List ℚ))) : ℚ :=
  (optimize_acqf (currValAcqf mean) stepf lowerB.dropLast upperB.dropLast
    1 maxiter inits).2

/-- The notebook's `get_mfkg`: optimizes the posterior mean at the target
fidelity once to obtain `current_value`, then constructs the
`qMultiFidelityKnowledgeGradient` instance capturing it. -/
def get_mfkg (mean : List ℚ → ℚ)
    (stepf : List (List ℚ) → List (List ℚ)) (maxiter : ℕ)
    (inits : List (List (List ℚ)))
    (fv : ℕ → List (List ℚ) → ℚ) : MFKGAcqf :=
  { numFantasies := 128
    currentValue := currentValueOf mean stepf maxiter inits
    fantasyVal := fv
    epsMin := 1 / 100 }

/-- Modelled from the spec: evaluating the `qMultiFidelityKnowledgeGradient`
acquisition (spec 4.5): per-fantasy gain is the fantasy value minus the
captured `current_value`, the raw value is the average over the fantasies,
and the final value is the cost-aware utility of raw value and batch cost.
The instance is pure, so evaluation returns it unchanged. -/
def evalMFKG (a : MFKGAcqf) (X : List (List ℚ)) : ℚ × MFKGAcqf :=
  let raw := ((List.range a.numFantasies).map
    (fun k => a.fantasyVal k X - a.currentValue)).sum / (a.numFantasies : ℚ)
  (invCostUtility a.epsMin raw (costBatch fidelityWeights fixedCost X), a)

/-- Evaluate the acquisition on a sequence of candidate batches, threading the
instance state through the calls. -/
def evalSeq (a : MFKGAcqf) : List (List (List ℚ)) → MFKGAcqf
  | [] => a
  | X :: Xs => evalSeq (evalMFKG a X).2 Xs

/-- Per-iteration external data for one BO step: the fitted model's
acquisition surface, the local maximizer's numeric update, the iteration cap
and the initial conditions from `gen_one_shot_kg_initial_conditions`. -/
structure IterData where
  acq : List (List ℚ) → ℚ
  stepf : List (List ℚ) → List (List ℚ)
  maxiter : ℕ
  inits : List (List (List ℚ))

/-- The notebook's `optimize_mfkg_and_get_observation`: optimizes MFKG over
the full box with `q=4` and returns the new candidates, observations and the
batch cost `cost_model(candidates).sum()`. -/
def optimize_mfkg_and_get_observation (obj : List ℚ → ℚ) (dat : IterData) :
    List (List ℚ) × List ℚ × ℚ :=
  let candidates :=
    (optimize_acqf dat.acq dat.stepf lowerB upperB 4 dat.maxiter dat.inits).1
  (candidates, candidates.map obj, costBatch fidelityWeights fixedCost candidates)

/-- The orchestrator's cross-iteration state: the training dataset
(`train_x`, `train_obj`) and the cumulative cost. -/
structure LoopState where
  train_x : List (List ℚ)
  train_obj : List ℚ
  cumulative_cost : ℚ

/-- One iteration of the notebook's BO loop: obtain a new batch, then
`train_x = torch.cat([train_x, new_x])`, `train_obj = torch.cat([train_obj,
new_obj])`, `cumulative_cost += cost`. -/
def boStep (obj : List ℚ → ℚ) (dat : IterData) (s : LoopState) : LoopState :=
  let r := optimize_mfkg_and_get_observation obj dat
  { train_x := s.train_x ++ r.1
    train_obj := s.train_obj ++ r.2.1
    cumulative_cost := s.cumulative_cost + r.2.2 }

/-- The notebook's BO loop: `N` iterations of `boStep`, the `n`-th iteration
using the external data `data n` produced by that round's model fit. -/
def boLoop (obj : List ℚ → ℚ) (data : ℕ → IterData) :
    ℕ → LoopState → LoopState
  | 0, s => s
  | n + 1, s => boStep obj (data n) (boLoop obj data n s)

/-- The notebook's `get_recommendation`: optimizes the posterior mean with the
fidelity dimension fixed to 1 over `bounds[:, :-1]` with `q=1`, rebuilds the
full point with `_construct_X_full`, and returns it with
`objective_value = problem(final_rec)`. -/
def get_recommendation (mean prob : List ℚ → ℚ)
    (stepf : List (List ℚ) → List (List ℚ)) (maxiter : ℕ)
    (inits : List (List (List ℚ))) : List ℚ × ℚ :=
  let rec_acqf := currValAcqf mean
  let cand :=
    (optimize_acqf rec_acqf stepf lowerB.dropLast upperB.dropLast
      1 maxiter inits).1
  let final_rec := construct_X_full fixedCols 7 (cand.getD 0 [])
  (final_rec, prob final_rec)

/-- The notebook's `optimize_ei_and_get_observation`: optimizes the
fixed-feature EI acquisition over the first six dimensions with `q=4`, adds
the fidelity parameter with `_construct_X_full`, and returns candidates,
observations and the batch cost. -/
def optimize_ei_and_get_observation (eiAcq : List (List ℚ) → ℚ)
    (obj : List ℚ → ℚ)
    (stepf : List (List ℚ) → List (List ℚ)) (maxiter : ℕ)
    (inits : List (List (List ℚ))) : List (List ℚ) × List ℚ × ℚ :=
  let cand6 :=
    (optimize_acqf eiAcq stepf lowerB.dropLast upperB.dropLast
      4 maxiter inits).1
  let candidates := cand6.map (construct_X_full fixedCols 7)
  (candidates, candidates.map obj, costBatch fidelityWeights fixedCost candidates)

/-! ## Helper lemmas -/

theorem clampCoord_bounds (l u v : ℚ) (h : l ≤ u) :
    l ≤ clampCoord l u v ∧ clampCoord l u v ≤ u :=
  ⟨le_max_left _ _, max_le h (min_le_right _ _)⟩

theorem clampToBox_length (lower upper x : List ℚ) :
    (clampToBox lower upper x).length = lower.length := by
  simp [clampToBox]

theorem clampToBox_getD (lower upper x : List ℚ) (i : ℕ)
    (h : i < lower.length) :
    (clampToBox lower upper x).getD i 0 =
    clampCoord (lower.getD i 0) (upper.getD i 0) (x.getD i 0) := by
  unfold clampToBox
  rw [List.getD_eq_getElem _ _ (by simpa using h)]
  simp

theorem clampToBox_in_box (lower upper x : List ℚ)
    (hlu : ∀ i, i < lower.length → lower.getD i 0 ≤ upper.getD i 0)
    (i : ℕ) (hi : i < lower.length) :
    lower.getD i 0 ≤ (clampToBox lower upper x).getD i 0 ∧
    (clampToBox lower upper x).getD i 0 ≤ upper.getD i 0 := by
  rw [clampToBox_getD _ _ _ _ hi]
  exact clampCoord_bounds _ _ _ (hlu i hi)

theorem normBatch_length (lower upper : List ℚ) (q : ℕ) (B : List (List ℚ)) :
    (normBatch lower upper q B).length = q := by
  simp [normBatch]

theorem mem_normBatch (lower upper : List ℚ) (q : ℕ) (B : List (List ℚ))
    (y : List ℚ) (h : y ∈ normBatch lower upper q B) :
    ∃ x, y = clampToBox lower upper x := by
  rcases List.mem_map.mp h with ⟨j, _, hj⟩
  exact ⟨B.getD j [], hj.symm⟩

theorem foldl_best_mem (acq : List (List ℚ) → ℚ)
    (rest : List (List (List ℚ))) (b : List (List ℚ)) :
    rest.foldl (fun best c => if acq best < acq c then c else best) b ∈
      b :: rest := by
  induction rest generalizing b with
  | nil => simp
  | cons c rest ih =>
    simp only [List.foldl_cons]
    have h := ih (if acq b < acq c then c else b)
    by_cases hc : acq b < acq c
    · rw [if_pos hc] at h ⊢
      exact List.mem_cons_of_mem _ h
    · rw [if_neg hc] at h ⊢
      rcases List.mem_cons.mp h with h1 | h1
      · rw [h1]
        exact List.mem_cons_self _ _
      · exact List.mem_cons_of_mem _ (List.mem_cons_of_mem _ h1)

theorem bestBatch_mem (acq : List (List ℚ) → ℚ)
    (bs : List (List (List ℚ))) (h : bs ≠ []) : bestBatch acq bs ∈ bs := by
  match bs with
  | [] => exact absurd rfl h
  | b :: rest => exact foldl_best_mem acq rest b

theorem localSearch_shape (stepf : List (List ℚ) → List (List ℚ))
    (lower upper : List ℚ) (q maxiter : ℕ) (B0 : List (List ℚ)) :
    ∃ C, localSearch stepf lower upper q maxiter B0 =
      normBatch lower upper q C := by
  cases maxiter with
  | zero => exact ⟨B0, rfl⟩
  | succ n =>
    refine ⟨stepf ((fun B => normBatch lower upper q (stepf B))^[n]
      (normBatch lower upper q B0)), ?_⟩
    simp [localSearch, Function.iterate_succ_apply']

theorem optimize_acqf_shape (acq : List (List ℚ) → ℚ)
    (stepf : List (List ℚ) → List (List ℚ)) (lower upper : List ℚ)
    (q maxiter : ℕ) (inits : List (List (List ℚ))) (h : inits ≠ []) :
    ∃ C, (optimize_acqf acq stepf lower upper q maxiter inits).1 =
      normBatch lower upper q C := by
  have hfin : inits.map (localSearch stepf lower upper q maxiter) ≠ [] := by
    simpa using h
  have hmem := bestBatch_mem acq _ hfin
  rcases List.mem_map.mp hmem with ⟨B0, _, hB0⟩
  rcases localSearch_shape stepf lower upper q maxiter B0 with ⟨C, hC⟩
  exact ⟨C, by rw [optimize_acqf, ← hB0, hC]⟩

/-! ## Claim theorems -/

/-- Claim C1: for every valid configuration (valid bounds, `q ≥ 1`, at least
one restart), the candidate batch returned by the continuous multi-restart
optimizer has exactly `q` design points and every design point lies within
the supplied bounded box: `lower[i] ≤ x[i] ≤ upper[i]` for each dimension. -/
theorem optimize_acqf_bounds_containment (acq : List (List ℚ) → ℚ)
    (stepf : List (List ℚ) → List (List ℚ)) (lower upper : List ℚ)
    (q maxiter : ℕ) (inits : List (List (List ℚ)))
    (hvalid : ∀ i, i < lower.length → lower.getD i 0 ≤ upper.getD i 0)
    (_hq : 1 ≤ q) (hinits : inits ≠ []) :
    (optimize_acqf acq stepf lower upper q maxiter inits).1.length = q ∧
    ∀ x ∈ (optimize_acqf acq stepf lower upper q maxiter inits).1,
      x.length = lower.length ∧
      ∀ i, i < lower.length →
        lower.getD i 0 ≤ x.getD i 0 ∧ x.getD i 0 ≤ upper.getD i 0 := by
  rcases optimize_acqf_shape acq stepf lower upper q maxiter inits hinits
    with ⟨C, hC⟩
  rw [hC]
  refine ⟨normBatch_length _ _ _ _, ?_⟩
  intro x hx
  rcases mem_normBatch _ _ _ _ _ hx with ⟨z, rfl⟩
  exact ⟨clampToBox_length _ _ _, fun i hi => clampToBox_in_box _ _ _ hvalid i hi⟩

/-- Concrete instantiation of the bounds-containment theorem on the
notebook's box `[0,1]^7` with `q = 4`. -/
theorem optimize_acqf_bounds_containment_witness :
    (∀ i, i < lowerB.length → lowerB.getD i 0 ≤ upperB.getD i 0) ∧
    ((optimize_acqf (fun _ => 0) (fun B => B) lowerB upperB 4 2
        [[List.replicate 7 (1 : ℚ)]]).1.length = 4 ∧
      ∀ x ∈ (optimize_acqf (fun _ => 0) (fun B => B) lowerB upperB 4 2
        [[List.replicate 7 (1 : ℚ)]]).1,
        x.length = lowerB.length ∧
        ∀ i, i < lowerB.length →
          lowerB.getD i 0 ≤ x.getD i 0 ∧ x.getD i 0 ≤ upperB.getD i 0) :=
  ⟨by decide,
    optimize_acqf_bounds_containment (fun _ => 0) (fun B => B) lowerB upperB
      4 2 [[List.replicate 7 (1 : ℚ)]] (by decide) (by decide)
      (by decide)⟩

/-- The new candidate batch of one BO iteration has exactly four design
points (the notebook's `q=4`) as soon as the iteration has at least one
restart initial condition. -/
theorem mfkg_candidates_length (obj : List ℚ → ℚ) (dat : IterData)
    (h : dat.inits ≠ []) :
    (optimize_mfkg_and_get_observation obj dat).1.length = 4 := by
  rcases optimize_acqf_shape dat.acq dat.stepf lowerB upperB 4 dat.maxiter
    dat.inits h with ⟨C, hC⟩
  show (optimize_acqf dat.acq dat.stepf lowerB upperB 4 dat.maxiter
    dat.inits).1.length = 4
  rw [hC]
  exact normBatch_length _ _ _ _

/-- Every design point proposed by one BO iteration has a nonnegative
fidelity coordinate: the candidates are clamped into the box `[0,1]^7`. -/
theorem mfkg_candidates_fid_nonneg (obj : List ℚ → ℚ) (dat : IterData)
    (h : dat.inits ≠ []) :
    ∀ y ∈ (optimize_mfkg_and_get_observation obj dat).1, 0 ≤ y.getD 6 0 := by
  rcases optimize_acqf_shape dat.acq dat.stepf lowerB upperB 4 dat.maxiter
    dat.inits h with ⟨C, hC⟩
  intro y hy
  have hy' : y ∈ normBatch lowerB upperB 4 C := by
    rw [← hC]
    exact hy
  rcases mem_normBatch _ _ _ _ _ hy' with ⟨z, rfl⟩
  have hbox := clampToBox_in_box lowerB upperB z (by decide) 6 (by decide)
  calc (0 : ℚ) = lowerB.getD 6 0 := by decide
    _ ≤ _ := hbox.1

/-- Claim C2: after `N` iterations of the BO loop with batch size `q = 4`,
the training dataset (`train_x` and equally `train_obj`) contains exactly
`initial_size + 4*N` observations (for the configured initial design of 16
points this is `16 + 4*N`), and growth is append-only: the first
`initial_size` entries are exactly the initial ones, unremoved and
unmodified. -/
theorem boLoop_dataset_growth (obj : List ℚ → ℚ) (data : ℕ → IterData)
    (N : ℕ) (s0 : LoopState) (h : ∀ n, (data n).inits ≠ []) :
    ((boLoop obj data N s0).train_x.length = s0.train_x.length + 4 * N) ∧
    ((boLoop obj data N s0).train_obj.length = s0.train_obj.length + 4 * N) ∧
    ((boLoop obj data N s0).train_x.take s0.train_x.length = s0.train_x) ∧
    ((boLoop obj data N s0).train_obj.take s0.train_obj.length =
      s0.train_obj) := by
  induction N with
  | zero => simp [boLoop]
  | succ n ih =>
    obtain ⟨h1, h2, h3, h4⟩ := ih
    have hlen := mfkg_candidates_length obj (data n) (h n)
    have hx : (boLoop obj data (n + 1) s0).train_x =
        (boLoop obj data n s0).train_x ++
          (optimize_mfkg_and_get_observation obj (data n)).1 := rfl
    have hobj : (boLoop obj data (n + 1) s0).train_obj =
        (boLoop obj data n s0).train_obj ++
          ((optimize_mfkg_and_get_observation obj (data n)).1.map obj) := rfl
    refine ⟨?_, ?_, ?_, ?_⟩
    · rw [hx, List.length_append, h1, hlen]
      ring
    · rw [hobj, List.length_append, h2, List.length_map, hlen]
      ring
    · rw [hx, List.take_append_of_le_length (by rw [h1]; omega), h3]
    · rw [hobj, List.take_append_of_le_length (by rw [h2]; omega), h4]

/-- Concrete instantiation of dataset growth: two iterations with a
16-point initial design give a 24-row dataset with the initial rows kept. -/
theorem boLoop_dataset_growth_witness :
    ((boLoop (fun _ => 0)
        (fun _ => ⟨fun _ => 0, fun B => B, 1, [[[]]]⟩) 2
        ⟨List.replicate 16 (List.replicate 7 (0 : ℚ)),
          List.replicate 16 (0 : ℚ), 0⟩).train_x.length =
      (List.replicate 16 (List.replicate 7 (0 : ℚ))).length + 4 * 2) ∧
    ((boLoop (fun _ => 0)
        (fun _ => ⟨fun _ => 0, fun B => B, 1, [[[]]]⟩) 2
        ⟨List.replicate 16 (List.replicate 7 (0 : ℚ)),
          List.replicate 16 (0 : ℚ), 0⟩).train_obj.length =
      (List.replicate 16 (0 : ℚ)).length + 4 * 2) ∧
    ((boLoop (fun _ => 0)
        (fun _ => ⟨fun _ => 0, fun B => B, 1, [[[]]]⟩) 2
        ⟨List.replicate 16 (List.replicate 7 (0 : ℚ)),
          List.replicate 16 (0 : ℚ), 0⟩).train_x.take
        (List.replicate 16 (List.replicate 7 (0 : ℚ))).length =
      List.replicate 16 (List.replicate 7 (0 : ℚ))) ∧
    ((boLoop (fun _ => 0)
        (fun _ => ⟨fun _ => 0, fun B => B, 1, [[[]]]⟩) 2
        ⟨List.replicate 16 (List.replicate 7 (0 : ℚ)),
          List.replicate 16 (0 : ℚ), 0⟩).train_obj.take
        (List.replicate 16 (0 : ℚ)).length = List.replicate 16 (0 : ℚ)) :=
  boLoop_dataset_growth (fun _ => 0)
    (fun _ => ⟨fun _ => 0, fun B => B, 1, [[[]]]⟩) 2
    ⟨List.replicate 16 (List.replicate 7 (0 : ℚ)),
      List.replicate 16 (0 : ℚ), 0⟩
    (fun _ => List.cons_ne_nil _ _)

/-- Any nonempty batch of design points with nonnegative fidelity
coordinates has total cost at least `5` per point under the configured cost
model, hence positive total cost. -/
theorem costBatch_lower_bound (B : List (List ℚ)) (hB : B ≠ [])
    (hfid : ∀ y ∈ B, 0 ≤ y.getD 6 0) :
    (B.length : ℚ) * 5 ≤ costBatch fidelityWeights fixedCost B ∧
    0 < costBatch fidelityWeights fixedCost B := by
  have hbound : (B.map (affineCost fidelityWeights fixedCost)).length • (5 : ℚ) ≤
      (B.map (affineCost fidelityWeights fixedCost)).sum := by
    refine List.card_nsmul_le_sum _ _ ?_
    intro v hv
    rcases List.mem_map.mp hv with ⟨y, hy, rfl⟩
    have h6 := hfid y hy
    simp only [affineCost, fidelityWeights, fixedCost]
    simp only [List.map_cons, List.map_nil, List.sum_cons, List.sum_nil,
      one_mul, add_zero]
    linarith
  rw [List.length_map, nsmul_eq_mul] at hbound
  have hlen : 1 ≤ B.length := List.length_pos.mpr hB
  have hlen' : (1 : ℚ) ≤ (B.length : ℚ) := by exact_mod_cast hlen
  refine ⟨hbound, lt_of_lt_of_le ?_ hbound⟩
  nlinarith

/-- Claim C3: over a full BO loop run the cumulative cost is strictly
increasing after each iteration; each iteration adds the batch cost
`cost_model(candidates).sum()`, which is at least `4 * 5` for the `q = 4`
batches of the loop, and in general any nonempty batch with nonnegative
fidelity coordinates costs at least `5` per point, hence a positive amount. -/
theorem cumulative_cost_strict_mono (obj : List ℚ → ℚ) (data : ℕ → IterData)
    (s0 : LoopState) (h : ∀ n, (data n).inits ≠ []) :
    (∀ N, (boLoop obj data N s0).cumulative_cost <
      (boLoop obj data (N + 1) s0).cumulative_cost) ∧
    (∀ N, (boLoop obj data N s0).cumulative_cost + 4 * 5 ≤
      (boLoop obj data (N + 1) s0).cumulative_cost) ∧
    ∀ B : List (List ℚ), B ≠ [] → (∀ y ∈ B, 0 ≤ y.getD 6 0) →
      (B.length : ℚ) * 5 ≤ costBatch fidelityWeights fixedCost B ∧
      0 < costBatch fidelityWeights fixedCost B := by
  have key : ∀ N, (boLoop obj data (N + 1) s0).cumulative_cost =
      (boLoop obj data N s0).cumulative_cost +
        costBatch fidelityWeights fixedCost
          (optimize_mfkg_and_get_observation obj (data N)).1 := fun _ => rfl
  have hcost : ∀ N, (4 : ℚ) * 5 ≤ costBatch fidelityWeights fixedCost
      (optimize_mfkg_and_get_observation obj (data N)).1 := by
    intro N
    have hlen := mfkg_candidates_length obj (data N) (h N)
    have hne : (optimize_mfkg_and_get_observation obj (data N)).1 ≠ [] := by
      intro hnil
      rw [hnil] at hlen
      exact absurd hlen (by decide)
    have := (costBatch_lower_bound _ hne
      (mfkg_candidates_fid_nonneg obj (data N) (h N))).1
    rw [hlen] at this
    exact_mod_cast this
  refine ⟨?_, ?_, fun B hB hfid => costBatch_lower_bound B hB hfid⟩
  · intro N
    rw [key N]
    have := hcost N
    linarith
  · intro N
    rw [key N]
    have := hcost N
    linarith

/-- Concrete instantiation of cost accumulation on a one-restart loop. -/
theorem cumulative_cost_strict_mono_witness :
    ((boLoop (fun _ => 0)
        (fun _ => ⟨fun _ => 0, fun B => B, 1, [[[]]]⟩) 0
        ⟨[], [], 0⟩).cumulative_cost <
      (boLoop (fun _ => 0)
        (fun _ => ⟨fun _ => 0, fun B => B, 1, [[[]]]⟩) 1
        ⟨[], [], 0⟩).cumulative_cost) ∧
    ((1 : ℚ) * 5 ≤ costBatch fidelityWeights fixedCost [[0, 0, 0, 0, 0, 0, 0]] ∧
      0 < costBatch fidelityWeights fixedCost [[0, 0, 0, 0, 0, 0, 0]]) :=
  ⟨(cumulative_cost_strict_mono (fun _ => 0)
      (fun _ => ⟨fun _ => 0, fun B => B, 1, [[[]]]⟩) ⟨[], [], 0⟩
      (fun _ => List.cons_ne_nil _ _)).1 0,
    by
      have := (cumulative_cost_strict_mono (fun _ => 0)
        (fun _ => ⟨fun _ => 0, fun B => B, 1, [[[]]]⟩) ⟨[], [], 0⟩
        (fun _ => List.cons_ne_nil _ _)).2.2 [[0, 0, 0, 0, 0, 0, 0]]
        (List.cons_ne_nil _ _) (by decide)
      simpa using this⟩

/-- Claim C5: the cost model is `cost(x) = fixed_cost + Σ_f weight[f]*x[f]`;
with the configured `fidelity_weights = {6: 1.0}` and `fixed_cost = 5.0` it is
`5 + x[6]`, and the total cost of a batch is the sum of the per-point costs. -/
theorem affine_cost_model_spec (x : List ℚ) (B : List (List ℚ)) :
    affineCost fidelityWeights fixedCost x = 5 + x.getD 6 0 ∧
    costBatch fidelityWeights fixedCost B =
      (B.map (affineCost fidelityWeights fixedCost)).sum ∧
    ∀ ws fc, affineCost ws fc x =
      fc + (ws.map (fun p => p.2 * x.getD p.1 0)).sum :=
  ⟨by simp [affineCost, fidelityWeights, fixedCost], rfl, fun _ _ => rfl⟩

/-- Claim C7 (amended): the cost-aware utility is strictly order-preserving
in the raw value for any fixed cost, and strictly order-inverting in the cost
for a fixed positive raw value as long as the costs are at least the clamping
threshold `eps` (below the threshold both costs clamp to `eps` and the
utilities coincide). -/
theorem invCostUtility_ordering (eps c v c1 c2 raw1 raw2 : ℚ)
    (heps : 0 < eps) :
    (raw1 < raw2 →
      invCostUtility eps raw1 c < invCostUtility eps raw2 c) ∧
    (0 < v → eps ≤ c1 → c1 < c2 →
      invCostUtility eps v c2 < invCostUtility eps v c1) := by
  constructor
  · intro hraw
    have hm : 0 < max c eps := lt_of_lt_of_le heps (le_max_right _ _)
    exact (div_lt_div_iff_of_pos_right hm).mpr hraw
  · intro hv h1 h12
    have h2 : eps ≤ c2 := h1.trans h12.le
    rw [invCostUtility, invCostUtility, max_eq_left h1, max_eq_left h2]
    exact div_lt_div_of_pos_left hv (lt_of_lt_of_le heps h1) h12

/-- Concrete instantiation of the utility ordering with `eps = 1/100`:
raw values `1 < 2` at cost `5`, and costs `5 < 6` at raw value `1`. -/
theorem invCostUtility_ordering_witness :
    invCostUtility (1 / 100) 1 5 < invCostUtility (1 / 100) 2 5 ∧
    invCostUtility (1 / 100) 1 6 < invCostUtility (1 / 100) 1 5 :=
  ⟨(invCostUtility_ordering (1 / 100) 5 1 5 6 1 2 (by norm_num)).1
      (by norm_num),
    (invCostUtility_ordering (1 / 100) 5 1 5 6 1 2 (by norm_num)).2
      (by norm_num) (by norm_num) (by norm_num)⟩

/-- Counterexample to claim C7 as stated: with the clamping threshold
`eps = 1/100`, the raw value `1 > 0` and the costs `0 < 1/200`, both clamped
costs equal `1/100`, so the utility is not strictly decreasing in the cost. -/
theorem invCostUtility_cost_ordering_cex :
    (0 : ℚ) < 1 / 100 ∧ (0 : ℚ) < 1 ∧ (0 : ℚ) < 1 / 200 ∧
    ¬ invCostUtility (1 / 100) 1 (1 / 200) < invCostUtility (1 / 100) 1 0 := by
  refine ⟨by norm_num, by norm_num, by norm_num, ?_⟩
  rw [invCostUtility, invCostUtility]
  norm_num

/-- Claim C8 (amended): with all fidelity weights zero and `fixed_cost = 1`,
the cost-aware utility is the identity on the raw value for every single-point
candidate batch (`q = 1`), for any clamping threshold `0 < eps ≤ 1`. -/
theorem zero_weight_collapse (ws : List (ℕ × ℚ)) (raw : ℚ) (x : List ℚ)
    (eps : ℚ) (hw : ∀ p ∈ ws, p.2 = 0) (_heps : 0 < eps) (heps1 : eps ≤ 1) :
    invCostUtility eps raw (costBatch ws 1 [x]) = raw := by
  have hc : costBatch ws 1 [x] = 1 := by
    have hsum : (ws.map (fun p => p.2 * x.getD p.1 0)).sum = 0 := by
      refine List.sum_eq_zero ?_
      intro v hv
      rcases List.mem_map.mp hv with ⟨p, hp, rfl⟩
      rw [hw p hp, zero_mul]
    show ([x].map (affineCost ws 1)).sum = 1
    rw [List.map_cons, List.map_nil, List.sum_cons, List.sum_nil, add_zero,
      affineCost, hsum, add_zero]
  rw [hc, invCostUtility, max_eq_left heps1, div_one]

/-- Concrete instantiation of the zero-weight collapse for a single-point
batch in `[0,1]^2` with weight `0` on dimension `1` and raw value `2`. -/
theorem zero_weight_collapse_witness :
    invCostUtility (1 / 100) 2 (costBatch [(1, 0)] 1 [[1 / 2, 1 / 2]]) = 2 :=
  zero_weight_collapse [(1, 0)] 2 [1 / 2, 1 / 2] (1 / 100)
    (by intro p hp; simp at hp; rw [hp]) (by norm_num) (by norm_num)

/-- Counterexample to claim C8 as stated: with weight `0` on dimension `1`
and `fixed_cost = 1`, a two-point batch has total cost `2`, so the utility of
the raw value `2` is `1`, not `2`; the collapse is not independent of the
batch size `q`. -/
theorem zero_weight_collapse_cex :
    invCostUtility (1 / 100) 2
      (costBatch [(1, 0)] 1 [[0, 0], [1, 1]]) ≠ 2 := by
  rw [invCostUtility]
  norm_num [costBatch, affineCost]

/-- Evaluated form of the notebook's fidelity projector on 7-dimensional
points: dimensions 0-5 are kept, dimension 6 is set to the target value 1. -/
theorem project_eval (x : List ℚ) : project x =
    [x.getD 0 0, x.getD 1 0, x.getD 2 0, x.getD 3 0, x.getD 4 0, x.getD 5 0,
      1] := rfl

/-- Claim C6: `project` equals the identity on all non-fidelity dimensions,
sets the fidelity dimension 6 to the target value 1, and is idempotent. -/
theorem project_spec (x : List ℚ) :
    (∀ i, i < 7 → i ≠ 6 → (project x).getD i 0 = x.getD i 0) ∧
    (project x).getD 6 0 = 1 ∧
    project (project x) = project x := by
  refine ⟨?_, rfl, rfl⟩
  intro i hi hne
  interval_cases i <;> first | rfl | exact absurd rfl hne

/-- Concrete instantiation of the projector claim at `x = [2,3,4,5,6,7,8]`. -/
theorem project_spec_witness :
    (project [2, 3, 4, 5, 6, 7, 8]).getD 0 0 = (2 : ℚ) ∧
    (project [2, 3, 4, 5, 6, 7, 8]).getD 6 0 = 1 ∧
    project (project [2, 3, 4, 5, 6, 7, 8]) =
      project [(2 : ℚ), 3, 4, 5, 6, 7, 8] :=
  ⟨(project_spec [2, 3, 4, 5, 6, 7, 8]).1 0 (by decide) (by decide),
    (project_spec [2, 3, 4, 5, 6, 7, 8]).2.1,
    (project_spec [2, 3, 4, 5, 6, 7, 8]).2.2⟩

/-- Evaluated form of `_construct_X_full` with `columns=[6], values=[1]` on
`d=7`: the six free coordinates are taken from the reduced point in order and
the value 1 is inserted at dimension 6. -/
theorem construct_X_full_eval (x : List ℚ) :
    construct_X_full fixedCols 7 x =
    [x.getD 0 0, x.getD 1 0, x.getD 2 0, x.getD 3 0, x.getD 4 0, x.getD 5 0,
      1] := rfl

theorem getD_replicate_of_lt {n : ℕ} (a d : ℚ) (i : ℕ) (h : i < n) :
    (List.replicate n a).getD i d = a := by
  rw [List.getD_eq_getElem _ _ (by simpa using h)]
  simp

/-- Claim C4 (amended): the final recommendation is a single 7-dimensional
design point obtained by maximizing the posterior mean with the fidelity
dimension fixed, it lies within the bounds, its fidelity coordinate equals
exactly 1, and it is reported together with the true objective value
`problem(final_rec)` (not with the model's predicted value). -/
theorem get_recommendation_spec (mean prob : List ℚ → ℚ)
    (stepf : List (List ℚ) → List (List ℚ)) (maxiter : ℕ)
    (inits : List (List (List ℚ))) (hinits : inits ≠ []) :
    (get_recommendation mean prob stepf maxiter inits).1.length = 7 ∧
    (get_recommendation mean prob stepf maxiter inits).1.getD 6 0 = 1 ∧
    (∀ i, i < 7 →
      0 ≤ (get_recommendation mean prob stepf maxiter inits).1.getD i 0 ∧
      (get_recommendation mean prob stepf maxiter inits).1.getD i 0 ≤ 1) ∧
    (get_recommendation mean prob stepf maxiter inits).2 =
      prob (get_recommendation mean prob stepf maxiter inits).1 := by
  rcases optimize_acqf_shape (currValAcqf mean) stepf lowerB.dropLast
    upperB.dropLast 1 maxiter inits hinits with ⟨C, hC⟩
  have hrec : (get_recommendation mean prob stepf maxiter inits).1 =
      construct_X_full fixedCols 7
        (clampToBox lowerB.dropLast upperB.dropLast (C.getD 0 [])) := by
    show construct_X_full fixedCols 7
      ((optimize_acqf (currValAcqf mean) stepf lowerB.dropLast
        upperB.dropLast 1 maxiter inits).1.getD 0 []) = _
    rw [hC]
    rfl
  have hlow : lowerB.dropLast = List.replicate 6 (0 : ℚ) := rfl
  have hup : upperB.dropLast = List.replicate 6 (1 : ℚ) := rfl
  have hbox : ∀ i, i < 6 →
      0 ≤ (clampToBox lowerB.dropLast upperB.dropLast (C.getD 0 [])).getD i 0 ∧
      (clampToBox lowerB.dropLast upperB.dropLast (C.getD 0 [])).getD i 0 ≤ 1 := by
    intro i hi
    have h := clampToBox_in_box lowerB.dropLast upperB.dropLast (C.getD 0 [])
      (by decide) i (by simpa using hi)
    rw [hlow, hup, getD_replicate_of_lt _ _ _ hi, getD_replicate_of_lt _ _ _ hi]
      at h
    exact h
  refine ⟨by rw [hrec, construct_X_full_eval]; rfl,
    by rw [hrec, construct_X_full_eval]; rfl, ?_, rfl⟩
  intro i hi
  rw [hrec, construct_X_full_eval]
  interval_cases i
  · exact hbox 0 (by decide)
  · exact hbox 1 (by decide)
  · exact hbox 2 (by decide)
  · exact hbox 3 (by decide)
  · exact hbox 4 (by decide)
  · exact hbox 5 (by decide)
  · exact ⟨by norm_num, by norm_num⟩

/-- Concrete instantiation of the recommendation claim. -/
theorem get_recommendation_spec_witness :
    ((get_recommendation (fun _ => 0) (fun _ => 0) (fun B => B) 1
        [[[2, 2, 2, 2, 2, 2]]]).1.getD 6 0 = 1) ∧
    ((get_recommendation (fun _ => 0) (fun _ => 0) (fun B => B) 1
        [[[2, 2, 2, 2, 2, 2]]]).1.length = 7) ∧
    (0 ≤ (get_recommendation (fun _ => 0) (fun _ => 0) (fun B => B) 1
        [[[2, 2, 2, 2, 2, 2]]]).1.getD 0 0 ∧
      (get_recommendation (fun _ => 0) (fun _ => 0) (fun B => B) 1
        [[[2, 2, 2, 2, 2, 2]]]).1.getD 0 0 ≤ 1) :=
  ⟨(get_recommendation_spec (fun _ => 0) (fun _ => 0) (fun B => B) 1
      [[[2, 2, 2, 2, 2, 2]]] (List.cons_ne_nil _ _)).2.1,
    (get_recommendation_spec (fun _ => 0) (fun _ => 0) (fun B => B) 1
      [[[2, 2, 2, 2, 2, 2]]] (List.cons_ne_nil _ _)).1,
    (get_recommendation_spec (fun _ => 0) (fun _ => 0) (fun B => B) 1
      [[[2, 2, 2, 2, 2, 2]]] (List.cons_ne_nil _ _)).2.2.1 0 (by decide)⟩

/-- A concrete posterior mean: constantly 1. -/
def meanC : List ℚ → ℚ := fun _ => 1

/-- A concrete true objective: constantly 0. -/
def probC : List ℚ → ℚ := fun _ => 0

/-- A concrete local-search update: the identity. -/
def stepC : List (List ℚ) → List (List ℚ) := fun B => B

/-- A concrete single restart initial condition for the reduced problem. -/
def initsC : List (List (List ℚ)) := [[List.replicate 6 0]]

/-- Counterexample to claim C4 as stated: `get_recommendation` reports the
value `problem(final_rec)` of the true objective, not the model's predicted
objective value; with a model whose posterior mean is constantly 1 and a
problem that is constantly 0, the reported value differs from the predicted
value at the recommended point. -/
theorem get_recommendation_predicted_value_cex :
    (get_recommendation meanC probC stepC 0 initsC).2 ≠
      meanC ((get_recommendation meanC probC stepC 0 initsC).1) := by
  show (0 : ℚ) ≠ 1
  norm_num

/-- Evaluating the MFKG acquisition never mutates the instance. -/
theorem evalSeq_eq (a : MFKGAcqf) (Xs : List (List (List ℚ))) :
    evalSeq a Xs = a := by
  induction Xs generalizing a with
  | nil => rfl
  | cons X Xs ih => exact ih a

/-- Claim C9: the lookahead baseline `current_value` is computed during
acquisition construction in `get_mfkg` and captured as fixed configuration;
evaluating the resulting acquisition on any sequence of candidate batches
returns the instance unchanged, with its captured `current_value` still equal
to the one computed at construction. -/
theorem current_value_computed_once (mean : List ℚ → ℚ)
    (stepf : List (List ℚ) → List (List ℚ)) (maxiter : ℕ)
    (inits : List (List (List ℚ))) (fv : ℕ → List (List ℚ) → ℚ)
    (Xs : List (List (List ℚ))) :
    evalSeq (get_mfkg mean stepf maxiter inits fv) Xs =
      get_mfkg mean stepf maxiter inits fv ∧
    (evalSeq (get_mfkg mean stepf maxiter inits fv) Xs).currentValue =
      currentValueOf mean stepf maxiter inits :=
  ⟨evalSeq_eq _ _, by rw [evalSeq_eq]; rfl⟩

/-- Claim C10: every candidate returned by the standard-EI comparison path
has fidelity coordinate exactly 1 (the EI acquisition is optimized over the
first six dimensions only and the fidelity value is reinserted by
`_construct_X_full`), the batch has `q = 4` points, and its total cost is
exactly `4 * (5 + 1) = 24`. -/
theorem ei_target_fidelity_and_cost (eiAcq : List (List ℚ) → ℚ)
    (obj : List ℚ → ℚ) (stepf : List (List ℚ) → List (List ℚ))
    (maxiter : ℕ) (inits : List (List (List ℚ))) (hinits : inits ≠ []) :
    (∀ c ∈ (optimize_ei_and_get_observation eiAcq obj stepf maxiter inits).1,
      c.getD 6 0 = 1) ∧
    (optimize_ei_and_get_observation eiAcq obj stepf maxiter inits).1.length
      = 4 ∧
    (optimize_ei_and_get_observation eiAcq obj stepf maxiter inits).2.2
      = 24 := by
  rcases optimize_acqf_shape eiAcq stepf lowerB.dropLast upperB.dropLast 4
    maxiter inits hinits with ⟨C, hC⟩
  have hcand : (optimize_ei_and_get_observation eiAcq obj stepf maxiter
      inits).1 = (normBatch lowerB.dropLast upperB.dropLast 4 C).map
        (construct_X_full fixedCols 7) := by
    show ((optimize_acqf eiAcq stepf lowerB.dropLast upperB.dropLast 4
      maxiter inits).1).map (construct_X_full fixedCols 7) = _
    rw [hC]
  have hfid : ∀ c ∈ (optimize_ei_and_get_observation eiAcq obj stepf maxiter
      inits).1, c.getD 6 0 = 1 := by
    rw [hcand]
    intro c hc
    rcases List.mem_map.mp hc with ⟨y, _, rfl⟩
    rw [construct_X_full_eval]
    rfl
  have hlen : (optimize_ei_and_get_observation eiAcq obj stepf maxiter
      inits).1.length = 4 := by
    rw [hcand, List.length_map]
    exact normBatch_length _ _ _ _
  refine ⟨hfid, hlen, ?_⟩
  show costBatch fidelityWeights fixedCost
    (optimize_ei_and_get_observation eiAcq obj stepf maxiter inits).1 = 24
  have hmap : (optimize_ei_and_get_observation eiAcq obj stepf maxiter
      inits).1.map (affineCost fidelityWeights fixedCost) =
      List.replicate 4 (6 : ℚ) := by
    rw [List.eq_replicate_iff]
    refine ⟨by rw [List.length_map, hlen], ?_⟩
    intro b hb
    rcases List.mem_map.mp hb with ⟨c, hc, rfl⟩
    have h6 := hfid c hc
    show fixedCost + ((fidelityWeights.map
      (fun p => p.2 * c.getD p.1 0)).sum) = 6
    rw [fidelityWeights, fixedCost, List.map_cons, List.map_nil,
      List.sum_cons, List.sum_nil, add_zero]
    simp only [one_mul]
    rw [h6]
    norm_num
  show ((optimize_ei_and_get_observation eiAcq obj stepf maxiter
    inits).1.map (affineCost fidelityWeights fixedCost)).sum = 24
  rw [hmap, List.sum_replicate, nsmul_eq_mul]
  norm_num

/-- Concrete instantiation of the EI-path claim with one restart. -/
theorem ei_target_fidelity_and_cost_witness :
    (∀ c ∈ (optimize_ei_and_get_observation (fun _ => 0) (fun _ => 0)
        (fun B => B) 1 [[List.replicate 6 (1 : ℚ)]]).1, c.getD 6 0 = 1) ∧
    (optimize_ei_and_get_observation (fun _ => 0) (fun _ => 0) (fun B => B) 1
      [[List.replicate 6 (1 : ℚ)]]).1.length = 4 ∧
    (optimize_ei_and_get_observation (fun _ => 0) (fun _ => 0) (fun B => B) 1
      [[List.replicate 6 (1 : ℚ)]]).2.2 = 24 :=
  ei_target_fidelity_and_cost (fun _ => 0) (fun _ => 0) (fun B => B) 1
    [[List.replicate 6 (1 : ℚ)]] (List.cons_ne_nil _ _)

end MFBO
